import Mathlib

/-!
Shallow embedding of the Copyless-Redis core (src/redis.rs, src/types.rs).

Bytes are modelled as `List Nat` (each entry one byte value).  Rust's
`Result<Option<A>, RESPError>` parser outcome is modelled as `PResult A`
with an extra `panic` constructor covering Rust panics (out-of-bounds
indexing, `unimplemented!()`).  All definitions are translated from the
Rust source; fuel arguments replace Rust's unbounded recursion and are
always chosen large enough for the executions the theorems mention.
-/

set_option autoImplicit false

namespace CopylessRedis

/-- Offset pair into an externally owned buffer (Rust `BufSplit(usize, usize)`,
field 0 is `start`, field 1 is `stop`). -/
structure BufSplit where
  start : Nat
  stop : Nat
deriving DecidableEq

/-- Rust `RedisBufSplit`: offset-based frame produced by the decoder. -/
inductive RedisBufSplit where
  | String (w : BufSplit)
  | Error (w : BufSplit)
  | Int (i : Int)
  | Array (vs : List RedisBufSplit)
  | NullArray
  | NullBulkString

/-- Rust `RedisValue`: materialized frame (owned bytes). -/
inductive RedisValue where
  | String (b : List Nat)
  | Error (b : List Nat)
  | Int (i : Int)
  | Array (vs : List RedisValue)
  | NullArray
  | NullBulkString
  | ErrorMsg (b : List Nat)

/-- Rust `RESPError`. -/
inductive RESPError where
  | UnexpectedEnd
  | UnknownStartingByte
  | IntParseFailure
  | NullBulkString
  | BadBulkStringSize
  | BadArraySize (n : Nat)
deriving DecidableEq

/-- Rust `ReturnError`. -/
inductive ReturnError where
  | UnknownType
deriving DecidableEq

/-- Rust `ReturnValue`. -/
inductive ReturnValue where
  | Ok
  | StringRes (b : List Nat)
  | MultiStringRes (bs : List (List Nat))
  | Array (vs : List ReturnValue)
  | IntRes (i : Int)
  | Nil

/-- Outcome of a Rust function returning `Result<Option A, RESPError>`:
`ok` is `Ok(Some _)`, `incomplete` is `Ok(None)`, `err` is `Err _`, and
`panic` covers Rust panics (out-of-bounds indexing, `unimplemented!()`). -/
inductive PResult (A : Type) where
  | panic
  | err (e : RESPError)
  | incomplete
  | ok (v : A)
deriving DecidableEq

/-- Outcome of a Rust function returning `Result<ReturnValue, ReturnError>`,
again with `panic` for Rust panics. -/
inductive DResult where
  | panic
  | err (e : ReturnError)
  | ok (v : ReturnValue)

/-- The shared state table `HashMap<String, String>` modelled as an
association list keyed by UTF-8 byte sequences (Rust `String`s). -/
abbrev Table := List (List Nat × List Nat)

/-- `HashMap::get`. -/
def tableGet : Table → List Nat → Option (List Nat)
  | [], _ => none
  | (k', v') :: t, k => if k' = k then some v' else tableGet t k

/-- `HashMap::insert`: returns the previous value (if any) and the updated table. -/
def tableInsert : Table → List Nat → List Nat → Option (List Nat) × Table
  | [], k, v => (none, [(k, v)])
  | (k', v') :: t, k, v =>
    if k' = k then (some v', (k, v) :: t)
    else
      let r := tableInsert t k v
      (r.1, (k', v') :: r.2)

/-- `BufSplit::as_slice`: `&buf[self.0..self.1]`.  Total model of Rust
slicing; the in-bounds invariant (start ≤ stop ≤ buf.len) is established
separately for every split the parser returns. -/
def as_slice (buf : List Nat) (w : BufSplit) : List Nat :=
  (buf.drop w.start).take (w.stop - w.start)

/-- `BufSplit::as_bytes`: `buf.slice(self.0..self.1)`, same byte range. -/
def as_bytes (buf : List Nat) (w : BufSplit) : List Nat :=
  (buf.drop w.start).take (w.stop - w.start)

/-! ## UTF-8 validation and `String::from_utf8_lossy`

Rust's UTF-8 validator, byte-range form.  `utf8Step b rest` classifies the
first character sequence of `b :: rest`: `valid n` means the first `n`
bytes form one well-formed scalar, `invalid n` means the first `n` bytes
are an invalid sequence that `from_utf8_lossy` replaces with one
U+FFFD (bytes EF BF BD), following "substitution of maximal subparts". -/

inductive Utf8Step where
  | valid (n : Nat)
  | invalid (n : Nat)
deriving DecidableEq

/-- Walk the expected continuation-byte ranges; `consumed` counts the lead
byte plus the continuation bytes already accepted.  Running out of input
mid-sequence replaces the whole tail (Rust's incomplete-suffix case). -/
def checkConts : List (Nat × Nat) → Nat → List Nat → Utf8Step
  | [], consumed, _ => .valid consumed
  | _ :: _, consumed, [] => .invalid consumed
  | (lo, hi) :: rs, consumed, b :: bs =>
    if lo ≤ b ∧ b ≤ hi then checkConts rs (consumed + 1) bs else .invalid consumed

def utf8Step (b : Nat) (rest : List Nat) : Utf8Step :=
  if b ≤ 0x7F then .valid 1
  else if 0xC2 ≤ b ∧ b ≤ 0xDF then checkConts [(0x80, 0xBF)] 1 rest
  else if b = 0xE0 then checkConts [(0xA0, 0xBF), (0x80, 0xBF)] 1 rest
  else if 0xE1 ≤ b ∧ b ≤ 0xEC then checkConts [(0x80, 0xBF), (0x80, 0xBF)] 1 rest
  else if b = 0xED then checkConts [(0x80, 0x9F), (0x80, 0xBF)] 1 rest
  else if 0xEE ≤ b ∧ b ≤ 0xEF then checkConts [(0x80, 0xBF), (0x80, 0xBF)] 1 rest
  else if b = 0xF0 then checkConts [(0x90, 0xBF), (0x80, 0xBF), (0x80, 0xBF)] 1 rest
  else if 0xF1 ≤ b ∧ b ≤ 0xF3 then checkConts [(0x80, 0xBF), (0x80, 0xBF), (0x80, 0xBF)] 1 rest
  else if b = 0xF4 then checkConts [(0x80, 0x8F), (0x80, 0xBF), (0x80, 0xBF)] 1 rest
  else .invalid 1

/-- Fueled body of `String::from_utf8_lossy` (each step consumes at least
one byte, so `fuel = length` always suffices and the fuel-out branch is
unreachable for the arguments used below). -/
def lossyF : Nat → List Nat → List Nat
  | 0, l => l
  | _ + 1, [] => []
  | fuel + 1, b :: rest =>
    match utf8Step b rest with
    | .valid n => b :: (rest.take (n - 1) ++ lossyF fuel (rest.drop (n - 1)))
    | .invalid n => 0xEF :: 0xBF :: 0xBD :: lossyF fuel (rest.drop (n - 1))

/-- `String::from_utf8_lossy`, as the UTF-8 byte sequence of the result. -/
def from_utf8_lossy (l : List Nat) : List Nat :=
  lossyF l.length l

/-- Fueled UTF-8 validity check (same stepping as `lossyF`). -/
def validF : Nat → List Nat → Bool
  | 0, l => l.isEmpty
  | _ + 1, [] => true
  | fuel + 1, b :: rest =>
    match utf8Step b rest with
    | .valid n => validF fuel (rest.drop (n - 1))
    | .invalid _ => false

def isValidUtf8 (l : List Nat) : Bool :=
  validF l.length l

/-- `str::to_lowercase`, modelled on the ASCII range (the command words
compared against are ASCII; exotic Unicode case mappings are not modelled
and all theorems below apply it to ASCII or already-lowercased bytes). -/
def lowerAscii (l : List Nat) : List Nat :=
  l.map (fun b => if 65 ≤ b ∧ b ≤ 90 then b + 32 else b)

/-! ## Decimal numerals -/

def isDigit (b : Nat) : Bool :=
  decide (48 ≤ b) && decide (b ≤ 57)

/-- Value of a big-endian digit-byte string (callers ensure all bytes are
ASCII digits). -/
def digitsToNat (l : List Nat) : Nat :=
  l.foldl (fun a b => a * 10 + (b - 48)) 0

/-- Little-endian digit bytes of a positive number, fueled (fuel ≥ number
of digits; `fuel = n` suffices). -/
def toDigitsLEF : Nat → Nat → List Nat
  | 0, _ => []
  | _ + 1, 0 => []
  | fuel + 1, n + 1 => ((n + 1) % 10 + 48) :: toDigitsLEF fuel ((n + 1) / 10)

/-- Decimal byte string of a `usize`, as produced by Rust's `format!("{}")`. -/
def decimalBytes (n : Nat) : List Nat :=
  if n = 0 then [48] else (toDigitsLEF n n).reverse

/-- `str::parse::<i64>` on raw bytes, sign and digits (no i64 range check). -/
def parseIntBytes : List Nat → Option Int
  | [] => none
  | b :: rest =>
    if b = 43 then
      if !rest.isEmpty && rest.all isDigit then some (digitsToNat rest : Nat) else none
    else if b = 45 then
      if !rest.isEmpty && rest.all isDigit then some (-(digitsToNat rest : Int)) else none
    else
      if (b :: rest).all isDigit then some ((digitsToNat (b :: rest) : Nat) : Int) else none

/-- `str::from_utf8` followed by `str::parse::<i64>`: a byte string passes
both exactly when it matches the signed-decimal grammar and fits in i64
(non-UTF-8 input always fails the grammar, so the two error paths fuse). -/
def parseI64 (l : List Nat) : Option Int :=
  match parseIntBytes l with
  | some i => if -(2 ^ 63) ≤ i ∧ i ≤ 2 ^ 63 - 1 then some i else none
  | none => none

/-! ## The frame decoder (src/redis.rs) -/

/-- The scan loop of `word` on the suffix `buf.drop pos`: returns the offset
of the first `\r` (13).  `[]` at entry would be Rust's `buf[end]`
out-of-bounds panic (unreachable from `word`, which checks `pos < len`);
a non-`\r` last byte is the `buf.len() <= end + 1` incomplete return. -/
def findCRoff : List Nat → PResult Nat
  | [] => .panic
  | b :: rest =>
    if b = 13 then .ok 0
    else if rest.length = 0 then .incomplete
    else
      match findCRoff rest with
      | .ok r => .ok (r + 1)
      | .panic => .panic
      | .err e => .err e
      | .incomplete => .incomplete

/-- `word(buf, pos)`. -/
def word (buf : List Nat) (pos : Nat) : PResult (Nat × BufSplit) :=
  if buf.length ≤ pos then .incomplete
  else
    match findCRoff (buf.drop pos) with
    | .ok r =>
      if pos + r + 1 < buf.length then .ok (pos + r + 2, ⟨pos, pos + r⟩)
      else .incomplete
    | .panic => .panic
    | .err e => .err e
    | .incomplete => .incomplete

/-- `integer(buf, pos)`. -/
def integer (buf : List Nat) (pos : Nat) : PResult (Nat × Int) :=
  match word buf pos with
  | .ok (p, w) =>
    match parseI64 (as_slice buf w) with
    | some i => .ok (p, i)
    | none => .err .IntParseFailure
  | .panic => .panic
  | .err e => .err e
  | .incomplete => .incomplete

/-- `bulk_string(buf, pos)`. -/
def bulk_string (buf : List Nat) (pos : Nat) : PResult (Nat × RedisBufSplit) :=
  match integer buf pos with
  | .ok (pos2, bulk_size) =>
    if bulk_size = -1 then .err .NullBulkString
    else if bulk_size < 0 then .err .BadBulkStringSize
    else
      let total_size := pos2 + bulk_size.toNat
      if buf.length < total_size + 2 then .incomplete
      else .ok (total_size + 2, .String ⟨pos2, total_size⟩)
  | .panic => .panic
  | .err e => .err e
  | .incomplete => .incomplete

/-- `simple_string(buf, pos)`. -/
def simple_string (buf : List Nat) (pos : Nat) : PResult (Nat × RedisBufSplit) :=
  match word buf pos with
  | .ok (p, w) => .ok (p, .String w)
  | .panic => .panic
  | .err e => .err e
  | .incomplete => .incomplete

/-- `resp_int(buf, pos)`. -/
def resp_int (buf : List Nat) (pos : Nat) : PResult (Nat × RedisBufSplit) :=
  match integer buf pos with
  | .ok (p, i) => .ok (p, .Int i)
  | .panic => .panic
  | .err e => .err e
  | .incomplete => .incomplete

/-- The element loop of `array`: decode `k` further nested frames with the
supplied parser, accumulating them in order; any non-`ok` nested outcome
is the whole loop's outcome. -/
def arrayLoop (pf : Nat → PResult (Nat × RedisBufSplit)) :
    Nat → Nat → List RedisBufSplit → PResult (Nat × RedisBufSplit)
  | 0, curr, acc => .ok (curr, .Array acc)
  | k + 1, curr, acc =>
    match pf curr with
    | .ok (np, v) => arrayLoop pf k np (acc ++ [v])
    | .panic => .panic
    | .err e => .err e
    | .incomplete => .incomplete

/-- `parse(buf, pos)`, fueled: one unit of fuel per nesting level (the `*`
branch inlines `array`, with `parse` recursion tied off through `arrayLoop`).
The `-` marker is Rust's `unimplemented!()`, hence `panic`; the `buf[pos]`
lookup panics out of bounds. -/
def parseF : Nat → List Nat → Nat → PResult (Nat × RedisBufSplit)
  | 0, _, _ => .panic
  | f + 1, buf, pos =>
    if buf.length = 0 then .incomplete
    else
      match buf[pos]? with
      | none => .panic
      | some b =>
        if b = 43 then simple_string buf (pos + 1)
        else if b = 45 then .panic
        else if b = 36 then bulk_string buf (pos + 1)
        else if b = 58 then resp_int buf (pos + 1)
        else if b = 42 then
          match integer buf (pos + 1) with
          | .ok (pos2, n) =>
            if n = -1 then .ok (pos2, .NullArray)
            else if 0 ≤ n then arrayLoop (fun c => parseF f buf c) n.toNat pos2 []
            else .err (.BadArraySize (n + 2 ^ 64).toNat)
          | .panic => .panic
          | .err e => .err e
          | .incomplete => .incomplete
        else .err .UnknownStartingByte

/-- `array(buf, pos)` (the body of the `*` branch of `parse`, with fuel `f`
for the nested `parse` calls). -/
def array (f : Nat) (buf : List Nat) (pos : Nat) : PResult (Nat × RedisBufSplit) :=
  match integer buf pos with
  | .ok (pos2, n) =>
    if n = -1 then .ok (pos2, .NullArray)
    else if 0 ≤ n then arrayLoop (fun c => parseF f buf c) n.toNat pos2 []
    else .err (.BadArraySize (n + 2 ^ 64).toNat)
  | .panic => .panic
  | .err e => .err e
  | .incomplete => .incomplete

/-- `parse(buf, pos)` with the default fuel: nesting depth is at most one
per 4-byte array header, so `buf.length + 1` levels always suffice. -/
def parse (buf : List Nat) (pos : Nat) : PResult (Nat × RedisBufSplit) :=
  parseF (buf.length + 1) buf pos

/-! ## Materialization and the response encoder (src/types.rs) -/

mutual
/-- `RedisBufSplit::redis_value`: resolve every offset pair against `buf`. -/
def RedisBufSplit.redis_value : RedisBufSplit → List Nat → RedisValue
  | .String bfs, buf => .String (as_bytes buf bfs)
  | .Int i, _ => .Int i
  | .Array vs, buf => .Array (redis_value_list vs buf)
  | .NullArray, _ => .NullArray
  | .NullBulkString, _ => .NullBulkString
  | .Error bfs, buf => .Error (as_bytes buf bfs)

def redis_value_list : List RedisBufSplit → List Nat → List RedisValue
  | [], _ => []
  | v :: vs, buf => v.redis_value buf :: redis_value_list vs buf
end

/-- `write_simple_string(b)`: `format!("+{}\r\n", from_utf8_lossy(b))`. -/
def write_simple_string (b : List Nat) : List Nat :=
  43 :: (from_utf8_lossy b ++ [13, 10])

/-- `write_bulk_string(b)`: lossy-decodes `b`, then emits
`format!("${}\r\n{}\r\n", s.len(), s)` — the declared length is the byte
length of the lossy string, not of `b`. -/
def write_bulk_string (b : List Nat) : List Nat :=
  let s := from_utf8_lossy b
  36 :: (decimalBytes s.length ++ (13 :: 10 :: (s ++ [13, 10])))

/-- `write_bulk_string_nil()`: `"$-1\r\n"`. -/
def write_bulk_string_nil : List Nat :=
  [36, 45, 49, 13, 10]

/-! ## The command dispatcher (src/types.rs) -/

/-- `Bytes::try_from(r: RedisValue)`. -/
def bytes_try_from : RedisValue → Except ReturnError (List Nat)
  | .String s => .ok s
  | _ => .error .UnknownType

/-- The byte strings "echo", "ping", "set", "get", "PONG". -/
def echoBytes : List Nat := [101, 99, 104, 111]
def pingBytes : List Nat := [112, 105, 110, 103]
def setBytes : List Nat := [115, 101, 116]
def getBytes : List Nat := [103, 101, 116]
def pongBytes : List Nat := [80, 79, 78, 71]

/-- `ReturnValue::handle_string`. -/
def handle_string (b : List Nat) : DResult :=
  let redis_string := lowerAscii (from_utf8_lossy b)
  if redis_string = echoBytes then .ok (.StringRes (write_simple_string b))
  else if redis_string = pingBytes then .ok (.StringRes (write_simple_string pongBytes))
  else .err .UnknownType

/-- `ReturnValue::handle_array`: interprets an array frame as a command
against the state table.  Element accesses `a[0]`, `a[1]` panic when
absent; note the `set` arm reads its value from `a[1]` (the key slot),
exactly as the source does. -/
def handle_array (a : List RedisValue) (state : Table) : DResult × Table :=
  match a.get? 0 with
  | none => (.panic, state)
  | some a0 =>
    match bytes_try_from a0 with
    | .error e => (.err e, state)
    | .ok head =>
      let head_s := lowerAscii (from_utf8_lossy head)
      if head_s = echoBytes then
        match a.get? 1 with
        | none => (.panic, state)
        | some a1 =>
          match bytes_try_from a1 with
          | .error e => (.err e, state)
          | .ok response => (.ok (.StringRes (write_bulk_string response)), state)
      else if head_s = pingBytes then
        (.ok (.StringRes (write_simple_string pongBytes)), state)
      else if head_s = setBytes then
        match a.get? 1 with
        | none => (.panic, state)
        | some a1 =>
          match bytes_try_from a1 with
          | .error e => (.err e, state)
          | .ok key =>
            let key_s := from_utf8_lossy key
            match a.get? 1 with
            | none => (.panic, state)
            | some a1v =>
              match bytes_try_from a1v with
              | .error e => (.err e, state)
              | .ok value =>
                let value_s := from_utf8_lossy value
                match tableInsert state key_s value_s with
                | (some old_value, state') =>
                  (.ok (.StringRes (write_bulk_string old_value)), state')
                | (none, state') => (.ok .Ok, state')
      else if head_s = getBytes then
        match a.get? 1 with
        | none => (.panic, state)
        | some a1 =>
          match bytes_try_from a1 with
          | .error e => (.err e, state)
          | .ok key =>
            let key_s := from_utf8_lossy key
            match tableGet state key_s with
            | some value => (.ok (.StringRes (write_bulk_string value)), state)
            | none => (.ok .Nil, state)
      else (.err .UnknownType, state)

/-- `ReturnValue::parse_redis_value`: the catch-all arm is
`unimplemented!()`, i.e. a panic. -/
def parse_redis_value (value : RedisValue) (state : Table) : DResult × Table :=
  match value with
  | .String cmd => (handle_string cmd, state)
  | .Array cmd => handle_array cmd state
  | _ => (.panic, state)

/-! ## Offset well-formedness (claim C9's invariant) -/

mutual
/-- Every offset pair in the frame satisfies `start ≤ stop ≤ len`. -/
def wfSplit (len : Nat) : RedisBufSplit → Bool
  | .String w => decide (w.start ≤ w.stop) && decide (w.stop ≤ len)
  | .Error w => decide (w.start ≤ w.stop) && decide (w.stop ≤ len)
  | .Int _ => true
  | .Array vs => wfSplitList len vs
  | .NullArray => true
  | .NullBulkString => true

def wfSplitList (len : Nat) : List RedisBufSplit → Bool
  | [] => true
  | v :: vs => wfSplit len v && wfSplitList len vs
end

/-! ## Decimal numeral lemmas -/

theorem toDigitsLEF_digit : ∀ (f n : Nat), ∀ b ∈ toDigitsLEF f n, 48 ≤ b ∧ b ≤ 57 := by
  intro f
  induction f with
  | zero => intro n b hb; simp [toDigitsLEF] at hb
  | succ f ih =>
    intro n b hb
    cases n with
    | zero => simp [toDigitsLEF] at hb
    | succ m =>
      simp only [toDigitsLEF, List.mem_cons] at hb
      rcases hb with h | h
      · subst h
        constructor
        · omega
        · have : (m + 1) % 10 < 10 := Nat.mod_lt _ (by omega)
          omega
      · exact ih _ b h

theorem foldr_toDigitsLEF : ∀ (f n : Nat), n ≤ f →
    (toDigitsLEF f n).foldr (fun b a => a * 10 + (b - 48)) 0 = n := by
  intro f
  induction f with
  | zero => intro n hn; interval_cases n; simp [toDigitsLEF]
  | succ f ih =>
    intro n hn
    cases n with
    | zero => simp [toDigitsLEF]
    | succ m =>
      have hdiv : (m + 1) / 10 ≤ f := by
        have : (m + 1) / 10 < m + 1 := Nat.div_lt_self (by omega) (by omega)
        omega
      simp only [toDigitsLEF, List.foldr_cons, ih _ hdiv]
      omega

theorem decimalBytes_ne_nil (n : Nat) : decimalBytes n ≠ [] := by
  unfold decimalBytes
  split
  · simp
  · intro h
    rename_i hn
    cases n with
    | zero => exact hn rfl
    | succ m => simp [toDigitsLEF] at h

theorem decimalBytes_digit (n : Nat) : ∀ b ∈ decimalBytes n, 48 ≤ b ∧ b ≤ 57 := by
  intro b hb
  unfold decimalBytes at hb
  split at hb
  · simp at hb; omega
  · rw [List.mem_reverse] at hb
    exact toDigitsLEF_digit n n b hb

theorem digitsToNat_decimalBytes (n : Nat) : digitsToNat (decimalBytes n) = n := by
  unfold decimalBytes digitsToNat
  split
  · rename_i h; subst h; simp
  · rw [List.foldl_reverse]
    exact foldr_toDigitsLEF n n le_rfl

theorem parseIntBytes_decimalBytes (n : Nat) : parseIntBytes (decimalBytes n) = some (n : Int) := by
  rcases h : decimalBytes n with _ | ⟨b, rest⟩
  · exact absurd h (decimalBytes_ne_nil n)
  · have hdig : ∀ x ∈ b :: rest, 48 ≤ x ∧ x ≤ 57 := fun x hx => decimalBytes_digit n x (h ▸ hx)
    have hb := hdig b (by simp)
    have hall : (b :: rest).all isDigit = true := by
      rw [List.all_eq_true]
      intro x hx
      have := hdig x hx
      simp [isDigit]
      omega
    have h43 : b ≠ 43 := by omega
    have h45 : b ≠ 45 := by omega
    simp only [parseIntBytes, if_neg h43, if_neg h45, if_pos hall]
    have : digitsToNat (b :: rest) = n := by rw [← h]; exact digitsToNat_decimalBytes n
    rw [this]

theorem parseI64_decimalBytes (n : Nat) (hn : n < 2 ^ 63) :
    parseI64 (decimalBytes n) = some (n : Int) := by
  have h1 : -(2 ^ 63 : Int) ≤ (n : Int) :=
    le_trans (by norm_num) (Int.natCast_nonneg n)
  have h2 : (n : Int) ≤ 2 ^ 63 - 1 := by
    have h3 : (n : Int) < 2 ^ 63 := by exact_mod_cast hn
    linarith
  simp only [parseI64, parseIntBytes_decimalBytes n]
  rw [if_pos ⟨h1, h2⟩]

/-! ## `word` lemmas -/

theorem findCRoff_append (w rest : List Nat) (hw : ∀ b ∈ w, b ≠ 13) :
    findCRoff (w ++ 13 :: rest) = .ok w.length := by
  induction w with
  | nil => simp [findCRoff]
  | cons a w' ih =>
    have ha : a ≠ 13 := hw a (by simp)
    have hw' : ∀ b ∈ w', b ≠ 13 := fun b hb => hw b (by simp [hb])
    have hlen : (w' ++ 13 :: rest).length ≠ 0 := by simp
    simp only [List.cons_append, findCRoff, List.append_eq, if_neg ha, if_neg hlen]
    rw [ih hw']
    simp

theorem findCRoff_ok_lt : ∀ (l : List Nat) (r : Nat), findCRoff l = .ok r → r < l.length := by
  intro l
  induction l with
  | nil => intro r h; simp [findCRoff] at h
  | cons b rest ih =>
    intro r h
    simp only [findCRoff] at h
    split at h
    · cases h; simp
    · split at h
      · cases h
      · rcases hrec : findCRoff rest with _ | _ | _ | r'
        all_goals rw [hrec] at h
        all_goals cases h
        have := ih r' hrec
        simp
        omega

theorem drop_ne_nil_lt {buf : List Nat} {pos : Nat} (h : buf.drop pos ≠ []) :
    pos < buf.length := by
  by_contra hle
  push_neg at hle
  exact h (List.drop_eq_nil_of_le hle)

theorem word_of_drop (buf : List Nat) (pos : Nat) (w : List Nat) (c : Nat) (rest : List Nat)
    (hdrop : buf.drop pos = w ++ 13 :: c :: rest) (hw : ∀ b ∈ w, b ≠ 13) :
    word buf pos = .ok (pos + w.length + 2, ⟨pos, pos + w.length⟩) := by
  have hpos : pos < buf.length := drop_ne_nil_lt (by rw [hdrop]; simp)
  have hlen : buf.length - pos = w.length + 2 + rest.length := by
    have := List.length_drop pos buf
    rw [hdrop] at this
    simp at this
    omega
  have hbound : pos + w.length + 1 < buf.length := by omega
  simp only [word, if_neg (by omega : ¬ buf.length ≤ pos), hdrop,
    findCRoff_append w (c :: rest) hw, if_pos hbound]

theorem word_ok_bounds (buf : List Nat) (pos p : Nat) (w : BufSplit)
    (h : word buf pos = .ok (p, w)) :
    w.start = pos ∧ w.start ≤ w.stop ∧ w.stop < buf.length ∧ p = w.stop + 2 ∧ p ≤ buf.length := by
  by_cases hle : buf.length ≤ pos
  · simp [word, hle] at h
  · rcases hcr : findCRoff (buf.drop pos) with _ | e | _ | r
    · simp [word, hle, hcr] at h
    · simp [word, hle, hcr] at h
    · simp [word, hle, hcr] at h
    · by_cases hb : pos + r + 1 < buf.length
      · simp only [word, if_neg hle, hcr, if_pos hb] at h
        cases h
        have hr := findCRoff_ok_lt _ _ hcr
        rw [List.length_drop] at hr
        refine ⟨rfl, ?_, ?_, rfl, ?_⟩
        · show pos ≤ pos + r
          omega
        · show pos + r < buf.length
          omega
        · omega
      · simp [word, hle, hcr, hb] at h

theorem as_slice_of_drop (buf : List Nat) (pos : Nat) (w tail : List Nat)
    (hdrop : buf.drop pos = w ++ tail) :
    as_slice buf ⟨pos, pos + w.length⟩ = w := by
  simp only [as_slice, hdrop]
  have heq : pos + w.length - pos = w.length := by omega
  rw [heq, List.take_left]

/-! ## Lossy-decoding lemmas -/

theorem lossyF_of_validF : ∀ (f : Nat) (l : List Nat), l.length ≤ f → validF f l = true →
    lossyF f l = l := by
  intro f
  induction f with
  | zero =>
    intro l hl _
    simp [lossyF]
  | succ f ih =>
    intro l hl hv
    cases l with
    | nil => simp [lossyF]
    | cons b rest =>
      simp only [validF] at hv
      simp only [lossyF]
      rcases hs : utf8Step b rest with n | n
      all_goals rw [hs] at hv
      · replace hv : validF f (rest.drop (n - 1)) = true := hv
        have hdroplen : (rest.drop (n - 1)).length ≤ f := by
          rw [List.length_drop]
          simp at hl
          omega
        show b :: (rest.take (n - 1) ++ lossyF f (rest.drop (n - 1))) = b :: rest
        rw [ih _ hdroplen hv, List.take_append_drop]
      · exact Bool.noConfusion hv

theorem lossy_id (l : List Nat) (h : isValidUtf8 l = true) : from_utf8_lossy l = l :=
  lossyF_of_validF l.length l le_rfl h

/-! ## `arrayLoop` lemmas -/

theorem arrayLoop_ok (pf : Nat → PResult (Nat × RedisBufSplit)) :
    ∀ (k curr : Nat) (acc : List RedisBufSplit) (q : Nat) (v : RedisBufSplit),
    arrayLoop pf k curr acc = .ok (q, v) →
    ∃ vs, v = .Array (acc ++ vs) ∧ vs.length = k := by
  intro k
  induction k with
  | zero =>
    intro curr acc q v h
    simp only [arrayLoop] at h
    cases h
    exact ⟨[], by simp, rfl⟩
  | succ k ih =>
    intro curr acc q v h
    simp only [arrayLoop] at h
    rcases hpf : pf curr with _ | _ | _ | nv
    all_goals rw [hpf] at h
    all_goals try cases h
    rcases nv with ⟨np, wv⟩
    rcases ih np (acc ++ [wv]) q v h with ⟨vs', hv, hlen⟩
    exact ⟨wv :: vs', by simp [hv], by simp [hlen]⟩

/-! ## Offset well-formedness lemmas -/

theorem wfSplitList_append (len : Nat) (a b : List RedisBufSplit) :
    wfSplitList len (a ++ b) = (wfSplitList len a && wfSplitList len b) := by
  induction a with
  | nil => simp [wfSplitList]
  | cons v vs ih => simp [wfSplitList, ih, Bool.and_assoc]

theorem integer_ok_le (buf : List Nat) (pos p : Nat) (i : Int)
    (h : integer buf pos = .ok (p, i)) : p ≤ buf.length := by
  rcases hw : word buf pos with _ | e | _ | pw
  · simp [integer, hw] at h
  · simp [integer, hw] at h
  · simp [integer, hw] at h
  · obtain ⟨p', w⟩ := pw
    rcases hp : parseI64 (as_slice buf w) with _ | i'
    · simp [integer, hw, hp] at h
    · simp only [integer, hw, hp] at h
      cases h
      exact (word_ok_bounds buf pos p w hw).2.2.2.2

theorem bulk_string_wf (buf : List Nat) (pos p : Nat) (v : RedisBufSplit)
    (h : bulk_string buf pos = .ok (p, v)) :
    wfSplit buf.length v = true ∧ p ≤ buf.length := by
  rcases hi : integer buf pos with _ | e | _ | pi
  · simp [bulk_string, hi] at h
  · simp [bulk_string, hi] at h
  · simp [bulk_string, hi] at h
  · obtain ⟨pos2, size⟩ := pi
    by_cases h1 : size = -1
    · simp [bulk_string, hi, h1] at h
    · by_cases h2 : size < 0
      · simp [bulk_string, hi, h1, h2] at h
      · by_cases h3 : buf.length < pos2 + size.toNat + 2
        · simp [bulk_string, hi, h1, h2, h3] at h
        · simp only [bulk_string, hi, if_neg h1, if_neg h2, if_neg h3] at h
          cases h
          constructor
          · simp only [wfSplit, Bool.and_eq_true, decide_eq_true_eq]
            omega
          · omega

theorem arrayLoop_wf (len : Nat) (pf : Nat → PResult (Nat × RedisBufSplit))
    (hp : ∀ c q v, pf c = .ok (q, v) → wfSplit len v = true ∧ q ≤ len) :
    ∀ (k curr : Nat) (acc : List RedisBufSplit) (q : Nat) (v : RedisBufSplit),
      curr ≤ len → wfSplitList len acc = true →
      arrayLoop pf k curr acc = .ok (q, v) → wfSplit len v = true ∧ q ≤ len := by
  intro k
  induction k with
  | zero =>
    intro curr acc q v hc hacc h
    simp only [arrayLoop] at h
    cases h
    refine ⟨?_, hc⟩
    simp only [wfSplit]
    exact hacc
  | succ k ih =>
    intro curr acc q v hc hacc h
    simp only [arrayLoop] at h
    rcases hpf : pf curr with _ | e | _ | nv
    · rw [hpf] at h; cases h
    · rw [hpf] at h; cases h
    · rw [hpf] at h; cases h
    · obtain ⟨np, w⟩ := nv
      rw [hpf] at h
      replace h : arrayLoop pf k np (acc ++ [w]) = .ok (q, v) := h
      obtain ⟨hw, hnp⟩ := hp curr np w hpf
      refine ih np (acc ++ [w]) q v hnp ?_ h
      rw [wfSplitList_append]
      simp [hacc, hw, wfSplitList]

theorem parseF_wf : ∀ (f : Nat) (buf : List Nat) (pos p : Nat) (v : RedisBufSplit),
    parseF f buf pos = .ok (p, v) → wfSplit buf.length v = true ∧ p ≤ buf.length := by
  intro f
  induction f with
  | zero =>
    intro buf pos p v h
    simp [parseF] at h
  | succ f ih =>
    intro buf pos p v h
    by_cases hemp : buf.length = 0
    · simp [parseF, hemp] at h
    · rcases hget : buf[pos]? with _ | b
      · simp [parseF, hemp, hget] at h
      · simp only [parseF, if_neg hemp, hget] at h
        by_cases h43 : b = 43
        · rw [if_pos h43] at h
          rcases hw : word buf (pos + 1) with _ | e | _ | pw
          · simp [simple_string, hw] at h
          · simp [simple_string, hw] at h
          · simp [simple_string, hw] at h
          · obtain ⟨p', w'⟩ := pw
            simp only [simple_string, hw] at h
            cases h
            obtain ⟨_, hb2, hb3, _, hb5⟩ := word_ok_bounds buf (pos + 1) p w' hw
            constructor
            · simp only [wfSplit, Bool.and_eq_true, decide_eq_true_eq]
              omega
            · omega
        · rw [if_neg h43] at h
          by_cases h45 : b = 45
          · rw [if_pos h45] at h; cases h
          · rw [if_neg h45] at h
            by_cases h36 : b = 36
            · rw [if_pos h36] at h
              exact bulk_string_wf buf (pos + 1) p v h
            · rw [if_neg h36] at h
              by_cases h58 : b = 58
              · rw [if_pos h58] at h
                rcases hi : integer buf (pos + 1) with _ | e | _ | pi
                · simp [resp_int, hi] at h
                · simp [resp_int, hi] at h
                · simp [resp_int, hi] at h
                · obtain ⟨p', i⟩ := pi
                  simp only [resp_int, hi] at h
                  cases h
                  exact ⟨by simp [wfSplit], integer_ok_le _ _ _ _ hi⟩
              · rw [if_neg h58] at h
                by_cases h42 : b = 42
                · rw [if_pos h42] at h
                  rcases hi : integer buf (pos + 1) with _ | e | _ | pi
                  · rw [hi] at h; cases h
                  · rw [hi] at h; cases h
                  · rw [hi] at h; cases h
                  · obtain ⟨pos2, n⟩ := pi
                    rw [hi] at h
                    replace h : (if n = -1 then PResult.ok (pos2, RedisBufSplit.NullArray)
                        else if 0 ≤ n then
                          arrayLoop (fun c => parseF f buf c) n.toNat pos2 []
                        else .err (.BadArraySize (n + 2 ^ 64).toNat)) = .ok (p, v) := h
                    by_cases hn1 : n = -1
                    · rw [if_pos hn1] at h
                      cases h
                      exact ⟨by simp [wfSplit], integer_ok_le _ _ _ _ hi⟩
                    · rw [if_neg hn1] at h
                      by_cases hn0 : 0 ≤ n
                      · rw [if_pos hn0] at h
                        exact arrayLoop_wf buf.length _
                          (fun c q' v' hc => ih buf c q' v' hc) n.toNat pos2 [] p v
                          (integer_ok_le _ _ _ _ hi) (by simp [wfSplitList]) h
                      · rw [if_neg hn0] at h; cases h
                · rw [if_neg h42] at h; cases h

theorem arrayLoop_incomplete_step (pf : Nat → PResult (Nat × RedisBufSplit))
    (k curr : Nat) (acc : List RedisBufSplit) (h : pf curr = .incomplete) :
    arrayLoop pf (k + 1) curr acc = .incomplete := by
  simp [arrayLoop, h]

theorem arrayLoop_ok_step (pf : Nat → PResult (Nat × RedisBufSplit))
    (k curr : Nat) (acc : List RedisBufSplit) (np : Nat) (v : RedisBufSplit)
    (h : pf curr = .ok (np, v)) :
    arrayLoop pf (k + 1) curr acc = arrayLoop pf k np (acc ++ [v]) := by
  simp [arrayLoop, h]

/-! ## Decoding a complete bulk-string encoding -/

theorem parse_cons36 (buf : List Nat) (h : buf[0]? = some 36) (hne : buf.length ≠ 0) :
    parse buf 0 = bulk_string buf 1 := by
  rw [parse]
  rcases f : buf.length with _ | m
  · exact absurd f hne
  · simp [parseF, hne, h]

theorem integer_of_digits (buf : List Nat) (payload : List Nat)
    (hdrop : buf.drop 1 = decimalBytes payload.length ++
      13 :: 10 :: (payload ++ [13, 10]))
    (hlen : payload.length < 2 ^ 63) :
    integer buf 1 = .ok (1 + (decimalBytes payload.length).length + 2,
      (payload.length : Int)) := by
  have hdig : ∀ b ∈ decimalBytes payload.length, b ≠ 13 := by
    intro b hb
    have := decimalBytes_digit payload.length b hb
    omega
  have hword := word_of_drop buf 1 (decimalBytes payload.length) 10 (payload ++ [13, 10])
    hdrop hdig
  have hslice := as_slice_of_drop buf 1 (decimalBytes payload.length)
    (13 :: 10 :: (payload ++ [13, 10])) hdrop
  simp only [integer, hword, hslice, parseI64_decimalBytes payload.length hlen]

theorem bulk_string_of_encoding (payload : List Nat) (hlen : payload.length < 2 ^ 63) :
    bulk_string (36 :: (decimalBytes payload.length ++
        (13 :: 10 :: (payload ++ [13, 10])))) 1 =
      .ok (1 + (decimalBytes payload.length).length + 2 + payload.length + 2,
        .String ⟨1 + (decimalBytes payload.length).length + 2,
          1 + (decimalBytes payload.length).length + 2 + payload.length⟩) := by
  have hdrop : (36 :: (decimalBytes payload.length ++
      (13 :: 10 :: (payload ++ [13, 10])))).drop 1 =
      decimalBytes payload.length ++ 13 :: 10 :: (payload ++ [13, 10]) := rfl
  have hint := integer_of_digits _ payload hdrop hlen
  have hne1 : ((payload.length : Int)) ≠ -1 := by omega
  have hne2 : ¬ ((payload.length : Int) < 0) := by omega
  have henclen : (36 :: (decimalBytes payload.length ++
      (13 :: 10 :: (payload ++ [13, 10])))).length =
      (decimalBytes payload.length).length + payload.length + 5 := by
    simp
    omega
  have hlt : ¬ ((36 :: (decimalBytes payload.length ++
      (13 :: 10 :: (payload ++ [13, 10])))).length <
      1 + (decimalBytes payload.length).length + 2 + payload.length + 2) := by
    rw [henclen]
    omega
  simp only [bulk_string, hint, if_neg hne1, if_neg hne2, if_neg hlt, Int.toNat_natCast]

theorem materialize_encoding_payload (payload : List Nat) :
    as_bytes (36 :: (decimalBytes payload.length ++ (13 :: 10 :: (payload ++ [13, 10]))))
      ⟨1 + (decimalBytes payload.length).length + 2,
        1 + (decimalBytes payload.length).length + 2 + payload.length⟩ = payload := by
  have heq : (36 :: (decimalBytes payload.length ++
      (13 :: 10 :: (payload ++ [13, 10])))) =
      (36 :: (decimalBytes payload.length ++ [13, 10])) ++ (payload ++ [13, 10]) := by
    simp
  have hlen1 : (36 :: (decimalBytes payload.length ++ [13, 10])).length =
      1 + (decimalBytes payload.length).length + 2 := by
    simp
    omega
  have hdrop : (36 :: (decimalBytes payload.length ++
      (13 :: 10 :: (payload ++ [13, 10])))).drop
        (1 + (decimalBytes payload.length).length + 2) = payload ++ [13, 10] := by
    rw [heq, ← hlen1, List.drop_left]
  have htake : 1 + (decimalBytes payload.length).length + 2 + payload.length -
      (1 + (decimalBytes payload.length).length + 2) = payload.length := by
    omega
  simp only [as_bytes, hdrop, htake, List.take_left]

/-! ## Claim theorems -/

/-- C1: the claim says `[SET, key, value]` stores `key -> value` with the value
taken from the third array element; the code instead reads the value from
`a[1]` (the key slot), so dispatching `[SET, "k", "v"]` against an empty table
stores `"k" -> "k"` (and returns plain Ok since the key was fresh): the stored
value is the key's bytes, not `"v"`. -/
theorem set_stores_key_slot_as_value :
    handle_array [.String setBytes, .String [107], .String [118]] []
      = (.ok .Ok, [([107], [107])])
    ∧ tableGet [([107], [107])] [107] = some [107]
    ∧ tableGet [([107], [107])] [107] ≠ some [118] :=
  ⟨rfl, rfl, by decide⟩

/-- C2: the claim says every strict prefix of a valid frame decodes to the
incomplete sentinel with no out-of-bounds access; but on the 4-byte strict
prefix `"*1\r\n"` of the valid frame `"*1\r\n:1\r\n"`, `parse` recurses to
position 4 of a 4-byte buffer and performs the out-of-bounds index `buf[4]`
(a panic), not `Ok(None)`. -/
theorem array_header_prefix_panics :
    parse [42, 49, 13, 10, 58, 49, 13, 10] 0 = .ok (8, .Array [.Int 1])
    ∧ [42, 49, 13, 10] = ([42, 49, 13, 10, 58, 49, 13, 10] : List Nat).take 4
    ∧ parse [42, 49, 13, 10] 0 = PResult.panic :=
  ⟨rfl, rfl, rfl⟩

/-- C3 (counterexample): dispatching the materialized frame `Int 5` does not
produce an UnknownType error result — it hits `unimplemented!()`, a panic. -/
theorem dispatch_int_frame_panics_cx :
    (parse_redis_value (.Int 5) []).1 = DResult.panic
    ∧ (parse_redis_value (.Int 5) []).1 ≠ DResult.err .UnknownType :=
  ⟨rfl, fun h => DResult.noConfusion h⟩

/-- C3 (amended): for every materialized frame whose variant is neither
String nor Array (Int, NullArray, NullBulkString, Error), dispatch panics
(`unimplemented!()`) and leaves the state unchanged, rather than returning
an UnknownType error result. -/
theorem dispatch_non_command_variants_panic (st : Table) (n : Int) (b : List Nat) :
    parse_redis_value (.Int n) st = (.panic, st)
    ∧ parse_redis_value .NullArray st = (.panic, st)
    ∧ parse_redis_value .NullBulkString st = (.panic, st)
    ∧ parse_redis_value (.Error b) st = (.panic, st) :=
  ⟨rfl, rfl, rfl, rfl⟩

/-- C4 (counterexample): `[SET, "k"]` — a known head with a missing value
argument — does not yield an UnknownCommand/ArityError error result: because
the value is read from `a[1]` it silently succeeds, storing `"k" -> "k"`. -/
theorem set_missing_value_succeeds_cx :
    handle_array [.String setBytes, .String [107]] [] = (.ok .Ok, [([107], [107])]) := rfl

/-- C4 (amended): dispatch implements no arity errors: an array whose head
matches a known command but lacks the accessed argument panics on
out-of-bounds indexing (the empty array, `[ECHO]`, `[GET]`, `[SET]`), while
`[SET, key]` succeeds storing `key -> key`; only an unmatched head yields
the UnknownType error. -/
theorem dispatch_arity_behavior (st : Table) :
    handle_array [] st = (.panic, st)
    ∧ handle_array [.String echoBytes] st = (.panic, st)
    ∧ handle_array [.String getBytes] st = (.panic, st)
    ∧ handle_array [.String setBytes] st = (.panic, st)
    ∧ handle_array [.String setBytes, .String [107]] [] = (.ok .Ok, [([107], [107])])
    ∧ handle_array [.String [122, 122, 122]] st = (.err .UnknownType, st) :=
  ⟨rfl, rfl, rfl, rfl, rfl, rfl⟩

/-- C5 (counterexample): on the non-UTF-8 input `[0xFF]`, `write_bulk_string`
emits `"$3\r\n"` + U+FFFD + `"\r\n"` (the lossy decoding, declared length 3),
not the claimed `"$1\r\n\xFF\r\n"` whose declared length is the byte length
of the input itself. -/
theorem write_bulk_string_lossy_cx :
    write_bulk_string [255] = [36, 51, 13, 10, 239, 191, 189, 13, 10]
    ∧ write_bulk_string [255] ≠ [36, 49, 13, 10, 255, 13, 10] :=
  ⟨rfl, by decide⟩

/-- C5 (amended): `write_bulk_string` first lossy-decodes its argument, so
for every byte sequence `b` that is valid UTF-8 the output is exactly
`"$" ++ decimal(byte length of b) ++ "\r\n" ++ b ++ "\r\n"`; for invalid
UTF-8 the emitted payload and declared length are those of the lossy
decoding, not of `b`. -/
theorem write_bulk_string_valid_utf8 (b : List Nat) (h : isValidUtf8 b = true) :
    write_bulk_string b = 36 :: (decimalBytes b.length ++ (13 :: 10 :: (b ++ [13, 10]))) := by
  simp only [write_bulk_string]
  rw [lossy_id b h]

/-- C5 (witness): the amended claim evaluated at the ASCII payload "abc". -/
theorem write_bulk_string_valid_utf8_witness :
    isValidUtf8 [97, 98, 99] = true
    ∧ write_bulk_string [97, 98, 99] = [36, 51, 13, 10, 97, 98, 99, 13, 10] :=
  ⟨by decide, write_bulk_string_valid_utf8 [97, 98, 99] (by decide)⟩

/-- C6 (counterexample): the round-trip fails for the CR-free payload
`[0xFF]`: decoding `"$1\r\n\xFF\r\n"` and materializing yields `[0xFF]`, but
re-encoding it goes through lossy UTF-8 decoding and produces
`"$3\r\n"` + U+FFFD + `"\r\n"`, not the original bytes. -/
theorem bulk_roundtrip_invalid_utf8_cx :
    parse [36, 49, 13, 10, 255, 13, 10] 0 = .ok (7, .String ⟨4, 5⟩)
    ∧ RedisBufSplit.redis_value (.String ⟨4, 5⟩) [36, 49, 13, 10, 255, 13, 10]
        = .String [255]
    ∧ ¬ 13 ∈ ([255] : List Nat)
    ∧ write_bulk_string [255] ≠ [36, 49, 13, 10, 255, 13, 10] :=
  ⟨rfl, rfl, by decide, by decide⟩

/-- C6 (amended): for every payload that is valid UTF-8 (and, as in the
claim, contains no embedded carriage return), decoding the complete
bulk-string encoding `"$<len>\r\n<payload>\r\n"` from position 0 consumes
the whole buffer, materializing the offset frame against that buffer gives
back the payload, and `write_bulk_string` reproduces the original input
bytes exactly; for non-UTF-8 payloads the lossy re-encoding breaks the
round-trip. -/
theorem bulk_string_roundtrip (payload : List Nat)
    (hv : isValidUtf8 payload = true) (hlen : payload.length < 2 ^ 63)
    (_hcr : ¬ 13 ∈ payload) :
    ∃ (p : Nat) (w : BufSplit),
      parse (36 :: (decimalBytes payload.length ++ (13 :: 10 :: (payload ++ [13, 10])))) 0
        = .ok (p, .String w)
      ∧ p = (36 :: (decimalBytes payload.length ++
          (13 :: 10 :: (payload ++ [13, 10])))).length
      ∧ RedisBufSplit.redis_value (.String w)
          (36 :: (decimalBytes payload.length ++ (13 :: 10 :: (payload ++ [13, 10]))))
          = .String payload
      ∧ write_bulk_string payload
          = 36 :: (decimalBytes payload.length ++ (13 :: 10 :: (payload ++ [13, 10]))) := by
  refine ⟨1 + (decimalBytes payload.length).length + 2 + payload.length + 2,
    ⟨1 + (decimalBytes payload.length).length + 2,
     1 + (decimalBytes payload.length).length + 2 + payload.length⟩, ?_, ?_, ?_, ?_⟩
  · rw [parse_cons36 _ (by simp) (by simp)]
    exact bulk_string_of_encoding payload hlen
  · simp
    omega
  · simp only [RedisBufSplit.redis_value]
    rw [materialize_encoding_payload payload]
  · simp only [write_bulk_string]
    rw [lossy_id payload hv]

/-- C6 (witness): the amended round-trip evaluated at the spec's example:
`"$3\r\nabc\r\n"`. -/
theorem bulk_string_roundtrip_witness :
    ∃ (p : Nat) (w : BufSplit),
      parse [36, 51, 13, 10, 97, 98, 99, 13, 10] 0 = .ok (p, .String w)
      ∧ p = ([36, 51, 13, 10, 97, 98, 99, 13, 10] : List Nat).length
      ∧ RedisBufSplit.redis_value (.String w) [36, 51, 13, 10, 97, 98, 99, 13, 10]
          = .String [97, 98, 99]
      ∧ write_bulk_string [97, 98, 99] = [36, 51, 13, 10, 97, 98, 99, 13, 10] :=
  bulk_string_roundtrip [97, 98, 99] (by decide) (by decide) (by decide)

/-- C7: array decoding is all-or-nothing.  When the count line parses as
`n ≥ 0`, `array` runs the element loop from an empty accumulator; any `ok`
result of the loop is an Array of exactly `n.toNat` nested frames
accumulated in buffer order, a nested decode reporting incomplete makes the
whole loop (hence the whole array decode) incomplete, and a successful
nested decode appends exactly that frame and continues — no partial element
list is ever surfaced. -/
theorem array_all_or_nothing (f : Nat) (buf : List Nat) (pos pos2 : Nat) (n : Int)
    (hi : integer buf pos = .ok (pos2, n)) (hn : 0 ≤ n) :
    array f buf pos = arrayLoop (fun c => parseF f buf c) n.toNat pos2 []
    ∧ (∀ q vs, arrayLoop (fun c => parseF f buf c) n.toNat pos2 [] = .ok (q, .Array vs) →
        vs.length = n.toNat)
    ∧ (∀ k curr acc, parseF f buf curr = .incomplete →
        arrayLoop (fun c => parseF f buf c) (k + 1) curr acc = .incomplete)
    ∧ (∀ k curr acc np v, parseF f buf curr = .ok (np, v) →
        arrayLoop (fun c => parseF f buf c) (k + 1) curr acc
          = arrayLoop (fun c => parseF f buf c) k np (acc ++ [v])) := by
  have h1 : n ≠ -1 := by omega
  refine ⟨?_, ?_, ?_, ?_⟩
  · simp [array, hi, h1, hn]
  · intro q vs h
    obtain ⟨vs', hv, hlen⟩ := arrayLoop_ok _ _ _ _ _ _ h
    injection hv with hv2
    simp only [List.nil_append] at hv2
    rw [hv2]
    exact hlen
  · intro k curr acc h
    exact arrayLoop_incomplete_step _ k curr acc h
  · intro k curr acc np v h
    exact arrayLoop_ok_step _ k curr acc np v h

/-- C7 (witness): the all-or-nothing description evaluated on
`"*2\r\n:1\r\n:2\r\n"`, whose count line parses as 2 at position 4. -/
theorem array_all_or_nothing_witness :
    array 9 [42, 50, 13, 10, 58, 49, 13, 10, 58, 50, 13, 10] 1
      = arrayLoop (fun c => parseF 9 [42, 50, 13, 10, 58, 49, 13, 10, 58, 50, 13, 10] c)
          2 4 [] :=
  (array_all_or_nothing 9 [42, 50, 13, 10, 58, 49, 13, 10, 58, 50, 13, 10] 1 4 2
    (by decide) (by decide)).1

/-- C8: when a bulk-string length line parses to exactly -1, decoding
returns the fatal error NullBulkString (not a nil value and not the
incomplete sentinel); when it parses to an integer strictly below -1,
decoding returns the fatal error BadBulkStringSize. -/
theorem bulk_string_negative_length_errors (buf : List Nat) (pos pos2 : Nat) (n : Int)
    (h : integer buf pos = .ok (pos2, n)) :
    (n = -1 → bulk_string buf pos = .err .NullBulkString)
    ∧ (n < -1 → bulk_string buf pos = .err .BadBulkStringSize) := by
  constructor
  · intro hn
    subst hn
    simp [bulk_string, h]
  · intro hn
    have h1 : n ≠ -1 := by omega
    have h2 : n < 0 := by omega
    simp [bulk_string, h, h1, h2]

/-- C8 (witness): the two error cases evaluated on `"$-1\r\nx"` and
`"$-2\r\nx"` (length lines starting at position 1). -/
theorem bulk_string_negative_length_errors_witness :
    bulk_string [36, 45, 49, 13, 10, 120] 1 = .err .NullBulkString
    ∧ bulk_string [36, 45, 50, 13, 10, 120] 1 = .err .BadBulkStringSize :=
  ⟨(bulk_string_negative_length_errors [36, 45, 49, 13, 10, 120] 1 5 (-1) (by decide)).1 rfl,
   (bulk_string_negative_length_errors [36, 45, 50, 13, 10, 120] 1 5 (-2) (by decide)).2
     (by decide)⟩

/-- C9: every offset pair inside a frame successfully returned by `parse`
satisfies `start ≤ stop ≤ buf.length` (recursively through arrays), so
materializing the frame with `as_slice`/`as_bytes` against the buffer that
produced it never reaches outside the buffer. -/
theorem parse_offsets_in_bounds (buf : List Nat) (pos p : Nat) (v : RedisBufSplit)
    (h : parse buf pos = .ok (p, v)) : wfSplit buf.length v = true :=
  (parseF_wf (buf.length + 1) buf pos p v h).1

/-- C9 (witness): the invariant evaluated on the decode of `"$3\r\nabc\r\n"`. -/
theorem parse_offsets_in_bounds_witness :
    wfSplit 9 (RedisBufSplit.String ⟨4, 7⟩) = true :=
  parse_offsets_in_bounds [36, 51, 13, 10, 97, 98, 99, 13, 10] 0 9 (.String ⟨4, 7⟩) rfl

/-- C10: SET and GET lossy-decode the key bytes before touching the table,
so the byte-distinct invalid-UTF-8 keys `[0xFF]` and `[0xFE]` alias: both
decode to U+FFFD, a SET under `[0xFF]` followed by a GET under `[0xFE]`
finds the entry and returns the stored value as a bulk string. -/
theorem lossy_key_aliasing :
    ([255] : List Nat) ≠ [254]
    ∧ from_utf8_lossy [255] = from_utf8_lossy [254]
    ∧ handle_array [.String setBytes, .String [255], .String [118]] []
        = (.ok .Ok, [([239, 191, 189], [239, 191, 189])])
    ∧ handle_array [.String getBytes, .String [254]] [([239, 191, 189], [239, 191, 189])]
        = (.ok (.StringRes [36, 51, 13, 10, 239, 191, 189, 13, 10]),
           [([239, 191, 189], [239, 191, 189])]) :=
  ⟨by decide, rfl, rfl, rfl⟩

end CopylessRedis
